import Mathlib

/-!
# GSM hopping sequence generator (`gsm_hsg.c`)

A shallow embedding of the function `hsg` of `src/gsm_hsg.c` and of its constant
table `RNTABLE`, followed by theorems about the embedding.

Conventions of the embedding.

* C integer arithmetic is modelled on `Nat` and `Int`.  Every operand of `hsg` is an
  unsigned 8 or 16 bit value that C promotes to `int`; all intermediate values stay far
  below `2^31`, so the only wrap-arounds are the explicit conversions on assignment to a
  `uint16_t` or `uint8_t` variable (`to_u16`, `to_u8`) and on return (`to_i16`).
* C's `%` truncates towards zero (`Int.tmod`) and is undefined for a zero divisor.
* A result of `none` stands for an execution with undefined behaviour in C: a division by
  zero, a read of `RNTABLE` outside its 114 entries, or the conversion of a non-finite
  `double` to an integer.  `some v` is the returned `int16_t` value `v`.
* `hsg_read` is the same function on a machine where a read of `RNTABLE` past its last
  entry does not trap but yields the byte stored at that address, given by a parameter
  `mem`; it agrees with `hsg` wherever the read stays inside the table.
-/

namespace Hsg

/-- The table `RNTABLE[114]` of `gsm_hsg.c`. -/
def RNTABLE : List Nat :=
  [ 48,  98,  63,   1,  36,  95,  78, 102,  94,  73,
     0,  64,  25,  81,  76,  59, 124,  23, 104, 100,
   101,  47, 118,  85,  18,  56,  96,  86,  54,   2,
    80,  34, 127,  13,   6,  89,  57, 103,  12,  74,
    55, 111,  75,  38, 109,  71, 112,  29,  11,  88,
    87,  19,   3,  68, 110,  26,  33,  31,   8,  45,
    82,  58,  40, 107,  32,   5, 106,  92,  62,  67,
    77, 108, 122,  37,  60,  66, 121,  42,  51, 126,
   117, 114,   4,  90,  43,  52,  53, 113, 120,  72,
    16,  49,   7,  79, 119,  61,  22,  84,   9,  97,
    91,  15,  21,  24,  46,  39,  93, 105,  65,  70,
   125,  99,  17, 123 ]

/-- Conversion of an `int` to `uint16_t`: reduction modulo `2^16` into `[0, 65535]`. -/
def to_u16 (x : Int) : Int := x % 65536

/-- Conversion of a non-negative value to `uint16_t`. -/
def nat_u16 (x : Nat) : Nat := x % 65536

/-- Conversion of a non-negative value to `uint8_t`. -/
def to_u8 (x : Nat) : Nat := x % 256

/-- Conversion of the `uint16_t` variable `mai` to the `int16_t` return type
(two's complement). -/
def to_i16 (x : Int) : Int :=
  if x % 65536 < 32768 then x % 65536 else x % 65536 - 65536

/-- The C expression `a % b` on `int`: undefined for `b = 0`, otherwise the remainder of
the division truncating towards zero. -/
def c_mod (a b : Int) : Option Int :=
  if b = 0 then none else some (Int.tmod a b)

/-- The C expression `a % b` on non-negative operands. -/
def nat_mod (a b : Nat) : Option Nat :=
  if b = 0 then none else some (a % b)

/-- The value `floor(log2(n))` for `n ≥ 1`, by repeated halving; the first argument bounds
the number of halvings. -/
def log2_floor : Nat → Nat → Nat
  | 0, _ => 0
  | fuel + 1, n => if 2 ≤ n then log2_floor fuel (n / 2) + 1 else 0

/-- The expression `(uint8_t) floor (log2 ((double) hsg_n) + 1.0)`.  The `double`
computation is modelled by its mathematical value; for `hsg_n = 0` the argument of the
conversion is minus infinity and the conversion is undefined. -/
def nbin (hsg_n : Nat) : Option Nat :=
  if hsg_n = 0 then none else some (to_u8 (log2_floor hsg_n hsg_n + 1))

/-- The index `hsn ^ ((t1 % 64) + t3)` with which `hsg` reads `RNTABLE`. -/
def rn_index (t1 t3 hsn : Nat) : Nat := hsn ^^^ ((t1 % 64) + t3)

/-- The function `hsg` of `gsm_hsg.c`.  The arguments are the values of the parameters
`t1`, `t2`, `t3` (`uint8_t`), `maio` (`uint16_t`), `hsn` and `hsg_n` (`uint8_t`). -/
def hsg (t1 t2 t3 maio hsn hsg_n : Nat) : Option Int :=
  if t1 > 63 ∨ t2 > 25 ∨ t3 > 50 ∨ hsg_n > 64 then some (-1)
  else if hsn = 0 then do
    let fn : Int := to_u16 (51 * Int.tmod ((t3 : Int) - (t2 : Int)) 26 + (t3 : Int)
                            + 51 * 26 * (t1 : Int))
    let mai ← c_mod (fn + (maio : Int)) (hsg_n : Int)
    pure (to_i16 (to_u16 mai))
  else do
    let hsg_nbin ← nbin hsg_n
    let hsg_modulo_nbin := nat_u16 (2 <<< nat_u16 hsg_nbin)
    let r ← RNTABLE[rn_index t1 t3 hsn]?
    let m := nat_u16 (t2 + r)
    let m ← nat_mod m hsg_modulo_nbin
    let m := nat_u16 m
    if m < hsg_n then do
      let mai ← nat_mod (maio + m) hsg_n
      pure (to_i16 ((nat_u16 mai : Nat) : Int))
    else do
      let t ← nat_mod t3 hsg_modulo_nbin
      let t := nat_u16 t
      let s ← nat_mod (m + t) hsg_n
      let mai ← nat_mod (maio + s) hsg_n
      pure (to_i16 ((nat_u16 mai : Nat) : Int))

/-- The byte that the read `RNTABLE[i]` yields when the read does not trap: the table entry
for `i` inside the table, and for `i` past the table the `uint8_t` stored at offset `i`
from the start of the table, `mem i`, whatever it is. -/
def rn_read (mem : Nat → Nat) (i : Nat) : Nat :=
  match RNTABLE[i]? with
  | some r => r
  | none => to_u8 (mem i)

/-- The function `hsg` of `gsm_hsg.c` with the read of `RNTABLE` performed by `rn_read`:
every other step is as in `hsg`. -/
def hsg_read (mem : Nat → Nat) (t1 t2 t3 maio hsn hsg_n : Nat) : Option Int :=
  if t1 > 63 ∨ t2 > 25 ∨ t3 > 50 ∨ hsg_n > 64 then some (-1)
  else if hsn = 0 then do
    let fn : Int := to_u16 (51 * Int.tmod ((t3 : Int) - (t2 : Int)) 26 + (t3 : Int)
                            + 51 * 26 * (t1 : Int))
    let mai ← c_mod (fn + (maio : Int)) (hsg_n : Int)
    pure (to_i16 (to_u16 mai))
  else do
    let hsg_nbin ← nbin hsg_n
    let hsg_modulo_nbin := nat_u16 (2 <<< nat_u16 hsg_nbin)
    let r := rn_read mem (rn_index t1 t3 hsn)
    let m := nat_u16 (t2 + r)
    let m ← nat_mod m hsg_modulo_nbin
    let m := nat_u16 m
    if m < hsg_n then do
      let mai ← nat_mod (maio + m) hsg_n
      pure (to_i16 ((nat_u16 mai : Nat) : Int))
    else do
      let t ← nat_mod t3 hsg_modulo_nbin
      let t := nat_u16 t
      let s ← nat_mod (m + t) hsg_n
      let mai ← nat_mod (maio + s) hsg_n
      pure (to_i16 ((nat_u16 mai : Nat) : Int))

/-- The value `S` of the pseudo-random path for a table entry `r`, in terms of the
modulus `2 ^ (log2_floor n n + 2)`. -/
def random_S (t2 t3 r n : Nat) : Nat :=
  if (t2 + r) % 2 ^ (log2_floor n n + 2) < n then (t2 + r) % 2 ^ (log2_floor n n + 2)
  else ((t2 + r) % 2 ^ (log2_floor n n + 2) + t3 % 2 ^ (log2_floor n n + 2)) % n

/-- The frame number as the pseudo-code states it,
`FN = 51 * ((T3 - T2) mod 26) + T3 + 51 * 26 * T1`, over the unbounded integers with the
floor modulus (the remainder lies in `[0, 26)`). -/
def spec_fn (t1 t2 t3 : Nat) : Int :=
  51 * (((t3 : Int) - (t2 : Int)) % 26) + (t3 : Int) + 51 * 26 * (t1 : Int)

/-- Steps 1, 3, 4 and 5 of the pseudo-random path as the specification words them, for the
table entry `r`: `b` is the bit length of `N`, the modulus is `2 ^ (b + 1)`. -/
def spec_pseudo_random (t2 t3 maio r N : Nat) : Nat :=
  let b := Nat.log2 N + 1
  let modulus := 2 ^ (b + 1)
  let M := (t2 + r) % modulus
  let S := if M < N then M else (M + t3 % modulus) % N
  (maio + S) % N

theorem log2_floor_eq_log2 (fuel n : Nat) (h : n ≤ fuel) : log2_floor fuel n = Nat.log2 n := by
  induction fuel generalizing n with
  | zero =>
    have : n = 0 := by omega
    subst this
    rw [Nat.log2]; simp [log2_floor]
  | succ k ih =>
    rw [Nat.log2]
    simp only [log2_floor]
    by_cases h2 : 2 ≤ n
    · have : n / 2 ≤ k := by omega
      simp [h2, ih _ this]
    · simp [h2]

theorem RNTABLE_le (i r : Nat) (h : RNTABLE[i]? = some r) : r ≤ 127 := by
  have hall : ∀ x ∈ RNTABLE, x ≤ 127 := by decide
  exact hall r (List.getElem?_mem h)

theorem nbin_eq (n : Nat) (h1 : 1 ≤ n) (h64 : n ≤ 64) :
    nbin n = some (log2_floor n n + 1) ∧
    nat_u16 (2 <<< nat_u16 (log2_floor n n + 1)) = 2 ^ (log2_floor n n + 2) := by
  interval_cases n <;> decide

theorem modulo_bounds (n : Nat) (h1 : 1 ≤ n) (h64 : n ≤ 64) :
    n < 2 ^ (log2_floor n n + 2) ∧ 2 ^ (log2_floor n n + 2) ≤ 256 := by
  interval_cases n <;> decide

theorem to_i16_small (x : Int) (h0 : 0 ≤ x) (h : x < 32768) : to_i16 x = x := by
  unfold to_i16
  have hx : x % 65536 = x := Int.emod_eq_of_lt h0 (by omega)
  rw [hx, if_pos h]

theorem hsg_cyclic_eq (t1 t2 t3 maio n : Nat) (h1 : t1 ≤ 63) (h2 : t2 ≤ 25) (h3 : t3 ≤ 50)
    (hn1 : 1 ≤ n) (hn : n ≤ 64) :
    hsg t1 t2 t3 maio 0 n =
      some (((51 * Int.tmod ((t3 : Int) - (t2 : Int)) 26 + (t3 : Int) + 1326 * (t1 : Int)) % 65536
              + (maio : Int)) % (n : Int)) := by
  have hg : ¬ (t1 > 63 ∨ t2 > 25 ∨ t3 > 50 ∨ n > 64) := by omega
  have hn0 : (n : Int) ≠ 0 := by omega
  have hfn0 : 0 ≤ (51 * Int.tmod ((t3 : Int) - (t2 : Int)) 26 + (t3 : Int) + 1326 * (t1 : Int)) % 65536 :=
    Int.emod_nonneg _ (by norm_num)
  generalize hfn : (51 * Int.tmod ((t3 : Int) - (t2 : Int)) 26 + (t3 : Int) + 1326 * (t1 : Int)) % 65536
    = fn at hfn0
  have hm : Int.tmod (fn + (maio : Int)) (n : Int) = (fn + (maio : Int)) % (n : Int) :=
    Int.tmod_eq_emod (by omega) (by omega)
  have hr0 : 0 ≤ (fn + (maio : Int)) % (n : Int) := Int.emod_nonneg _ hn0
  have hrn : (fn + (maio : Int)) % (n : Int) < (n : Int) := Int.emod_lt_of_pos _ (by omega)
  have hu : to_u16 ((fn + (maio : Int)) % (n : Int)) = (fn + (maio : Int)) % (n : Int) := by
    unfold to_u16
    exact Int.emod_eq_of_lt hr0 (by omega)
  have hfn2 : to_u16 (51 * Int.tmod ((t3 : Int) - (t2 : Int)) 26 + (t3 : Int) + 51 * 26 * (t1 : Int)) = fn := by
    unfold to_u16
    rw [← hfn]
    norm_num
  unfold hsg
  rw [if_neg hg, if_pos rfl, hfn2]
  simp only [c_mod, if_neg hn0, hm, Option.bind_eq_bind, Option.some_bind, Option.pure_def, hu]
  rw [to_i16_small _ hr0 (by omega)]

theorem nat_u16_small (x : Nat) (h : x < 65536) : nat_u16 x = x := Nat.mod_eq_of_lt h

theorem hsg_random_eq (t1 t2 t3 maio hsn n r : Nat) (h1 : t1 ≤ 63) (h2 : t2 ≤ 25)
    (h3 : t3 ≤ 50) (hn1 : 1 ≤ n) (hn : n ≤ 64) (hh : hsn ≠ 0)
    (hr : RNTABLE[rn_index t1 t3 hsn]? = some r) :
    hsg t1 t2 t3 maio hsn n = some (((maio + random_S t2 t3 r n) % n : Nat) : Int) := by
  have hg : ¬ (t1 > 63 ∨ t2 > 25 ∨ t3 > 50 ∨ n > 64) := by omega
  have hn0 : n ≠ 0 := by omega
  obtain ⟨hb, hmod⟩ := nbin_eq n hn1 hn
  obtain ⟨hlt, h256⟩ := modulo_bounds n hn1 hn
  have hr127 := RNTABLE_le _ _ hr
  have hpos : 2 ^ (log2_floor n n + 2) ≠ 0 := by positivity
  have hfin : ∀ x : Nat, to_i16 ((nat_u16 (x % n) : Nat) : Int) = ((x % n : Nat) : Int) := by
    intro x
    have hx : x % n < n := Nat.mod_lt _ (by omega)
    rw [nat_u16_small _ (by omega)]
    exact to_i16_small _ (by omega) (by omega)
  have hM : (t2 + r) % 2 ^ (log2_floor n n + 2) < 2 ^ (log2_floor n n + 2) :=
    Nat.mod_lt _ (by omega)
  have hT : t3 % 2 ^ (log2_floor n n + 2) < 2 ^ (log2_floor n n + 2) :=
    Nat.mod_lt _ (by omega)
  unfold hsg
  rw [if_neg hg, if_neg hh]
  simp only [hb, hr, hmod, Option.bind_eq_bind, Option.some_bind, Option.pure_def, nat_mod,
    if_neg hpos, if_neg hn0]
  rw [nat_u16_small (t2 + r) (by omega),
    nat_u16_small ((t2 + r) % 2 ^ (log2_floor n n + 2)) (by omega),
    nat_u16_small (t3 % 2 ^ (log2_floor n n + 2)) (by omega)]
  unfold random_S
  split
  · simp only [Option.some_bind, hfin]
  · simp only [Option.some_bind, hfin]

theorem hsg_random_undef (t1 t2 t3 maio hsn n : Nat) (h1 : t1 ≤ 63) (h2 : t2 ≤ 25)
    (h3 : t3 ≤ 50) (hn : n ≤ 64) (hh : hsn ≠ 0)
    (hr : 113 < rn_index t1 t3 hsn) :
    hsg t1 t2 t3 maio hsn n = none := by
  have hg : ¬ (t1 > 63 ∨ t2 > 25 ∨ t3 > 50 ∨ n > 64) := by omega
  have hnone : RNTABLE[rn_index t1 t3 hsn]? = none := by
    apply List.getElem?_eq_none
    have : RNTABLE.length = 114 := by decide
    omega
  unfold hsg
  rw [if_neg hg, if_neg hh]
  cases hb : nbin n <;> simp [hnone]

theorem hsg_zero_undef (t1 t2 t3 maio hsn : Nat) (h1 : t1 ≤ 63) (h2 : t2 ≤ 25)
    (h3 : t3 ≤ 50) : hsg t1 t2 t3 maio hsn 0 = none := by
  have hg : ¬ (t1 > 63 ∨ t2 > 25 ∨ t3 > 50 ∨ 0 > 64) := by omega
  unfold hsg
  rw [if_neg hg]
  by_cases hh : hsn = 0
  · simp [hh, c_mod]
  · simp [hh, nbin]

theorem spec_pseudo_random_eq (t2 t3 maio r N : Nat) :
    spec_pseudo_random t2 t3 maio r N = (maio + random_S t2 t3 r N) % N := by
  simp only [spec_pseudo_random, random_S, log2_floor_eq_log2 N N (Nat.le_refl N)]

/-- The sentinel `-1` is returned exactly for the inputs the sanity check refuses. -/
theorem hsg_sentinel_iff (t1 t2 t3 maio hsn n : Nat) :
    hsg t1 t2 t3 maio hsn n = some (-1) ↔ (t1 > 63 ∨ t2 > 25 ∨ t3 > 50 ∨ n > 64) := by
  constructor
  · intro h
    by_contra hg
    have h1 : t1 ≤ 63 := by omega
    have h2 : t2 ≤ 25 := by omega
    have h3 : t3 ≤ 50 := by omega
    have hn : n ≤ 64 := by omega
    rcases Nat.eq_zero_or_pos n with h0 | hpos
    · subst h0
      rw [hsg_zero_undef t1 t2 t3 maio hsn h1 h2 h3] at h
      exact Option.noConfusion h
    · by_cases hh : hsn = 0
      · subst hh
        rw [hsg_cyclic_eq t1 t2 t3 maio n h1 h2 h3 hpos hn] at h
        have hnn := Int.emod_nonneg
          ((51 * Int.tmod ((t3 : Int) - (t2 : Int)) 26 + (t3 : Int) + 1326 * (t1 : Int)) % 65536
            + (maio : Int)) (show (n : Int) ≠ 0 by omega)
        injection h with h
        omega
      · cases hr : RNTABLE[rn_index t1 t3 hsn]? with
        | none =>
          have hlen : RNTABLE.length = 114 := by decide
          have := List.getElem?_eq_none_iff.mp hr
          rw [hsg_random_undef t1 t2 t3 maio hsn n h1 h2 h3 hn hh (by omega)] at h
          exact Option.noConfusion h
        | some r =>
          rw [hsg_random_eq t1 t2 t3 maio hsn n r h1 h2 h3 hpos hn hh hr] at h
          injection h with h
          omega
  · intro hg
    unfold hsg
    rw [if_pos hg]

/-- Whenever `hsg` returns a value on an input with counters in range and `1 ≤ n ≤ 64`,
the value is an index in `[0, n)`. -/
theorem hsg_result_in_range (t1 t2 t3 maio hsn n : Nat) (v : Int) (h1 : t1 ≤ 63)
    (h2 : t2 ≤ 25) (h3 : t3 ≤ 50) (hn1 : 1 ≤ n) (hn : n ≤ 64)
    (hv : hsg t1 t2 t3 maio hsn n = some v) : 0 ≤ v ∧ v < (n : Int) := by
  by_cases hh : hsn = 0
  · subst hh
    rw [hsg_cyclic_eq t1 t2 t3 maio n h1 h2 h3 hn1 hn] at hv
    injection hv with hv
    subst hv
    exact ⟨Int.emod_nonneg _ (by omega), Int.emod_lt_of_pos _ (by omega)⟩
  · cases hr : RNTABLE[rn_index t1 t3 hsn]? with
    | none =>
      have hlen : RNTABLE.length = 114 := by decide
      have := List.getElem?_eq_none_iff.mp hr
      rw [hsg_random_undef t1 t2 t3 maio hsn n h1 h2 h3 hn hh (by omega)] at hv
      exact Option.noConfusion hv
    | some r =>
      rw [hsg_random_eq t1 t2 t3 maio hsn n r h1 h2 h3 hn1 hn hh hr] at hv
      injection hv with hv
      subst hv
      have := Nat.mod_lt (maio + random_S t2 t3 r n) (show 0 < n by omega)
      omega

theorem rn_read_le (mem : Nat → Nat) (i : Nat) : rn_read mem i ≤ 255 := by
  unfold rn_read
  cases hr : RNTABLE[i]? with
  | none =>
    simp only [to_u8]
    omega
  | some r =>
    have := RNTABLE_le i r hr
    simp only
    omega

theorem rn_read_in_table (mem : Nat → Nat) (i r : Nat) (hr : RNTABLE[i]? = some r) :
    rn_read mem i = r := by
  unfold rn_read
  rw [hr]

theorem hsg_read_cyclic (mem : Nat → Nat) (t1 t2 t3 maio n : Nat) :
    hsg_read mem t1 t2 t3 maio 0 n = hsg t1 t2 t3 maio 0 n := by
  unfold hsg_read hsg
  simp only [if_true]

theorem hsg_read_rejected (mem : Nat → Nat) (t1 t2 t3 maio hsn n : Nat)
    (hg : t1 > 63 ∨ t2 > 25 ∨ t3 > 50 ∨ n > 64) :
    hsg_read mem t1 t2 t3 maio hsn n = some (-1) := by
  unfold hsg_read
  rw [if_pos hg]

theorem hsg_read_zero_undef (mem : Nat → Nat) (t1 t2 t3 maio hsn : Nat) (h1 : t1 ≤ 63)
    (h2 : t2 ≤ 25) (h3 : t3 ≤ 50) : hsg_read mem t1 t2 t3 maio hsn 0 = none := by
  have hg : ¬ (t1 > 63 ∨ t2 > 25 ∨ t3 > 50 ∨ 0 > 64) := by omega
  unfold hsg_read
  rw [if_neg hg]
  by_cases hh : hsn = 0
  · simp [hh, c_mod]
  · simp [hh, nbin]

theorem hsg_read_random_eq (mem : Nat → Nat) (t1 t2 t3 maio hsn n : Nat) (h1 : t1 ≤ 63)
    (h2 : t2 ≤ 25) (h3 : t3 ≤ 50) (hn1 : 1 ≤ n) (hn : n ≤ 64) (hh : hsn ≠ 0) :
    hsg_read mem t1 t2 t3 maio hsn n =
      some (((maio + random_S t2 t3 (rn_read mem (rn_index t1 t3 hsn)) n) % n : Nat) : Int) := by
  have hg : ¬ (t1 > 63 ∨ t2 > 25 ∨ t3 > 50 ∨ n > 64) := by omega
  have hn0 : n ≠ 0 := by omega
  obtain ⟨hb, hmod⟩ := nbin_eq n hn1 hn
  obtain ⟨hlt, h256⟩ := modulo_bounds n hn1 hn
  have hr255 := rn_read_le mem (rn_index t1 t3 hsn)
  unfold hsg_read
  rw [if_neg hg, if_neg hh]
  generalize rn_read mem (rn_index t1 t3 hsn) = r at hr255 ⊢
  have hpos : 2 ^ (log2_floor n n + 2) ≠ 0 := by positivity
  have hfin : ∀ x : Nat, to_i16 ((nat_u16 (x % n) : Nat) : Int) = ((x % n : Nat) : Int) := by
    intro x
    have hx : x % n < n := Nat.mod_lt _ (by omega)
    rw [nat_u16_small _ (by omega)]
    exact to_i16_small _ (by omega) (by omega)
  have hM : (t2 + r) % 2 ^ (log2_floor n n + 2) < 2 ^ (log2_floor n n + 2) :=
    Nat.mod_lt _ (by omega)
  have hT : t3 % 2 ^ (log2_floor n n + 2) < 2 ^ (log2_floor n n + 2) :=
    Nat.mod_lt _ (by omega)
  simp only [hb, hmod, Option.bind_eq_bind, Option.some_bind, Option.pure_def, nat_mod,
    if_neg hpos, if_neg hn0]
  rw [nat_u16_small (t2 + r) (by omega),
    nat_u16_small ((t2 + r) % 2 ^ (log2_floor n n + 2)) (by omega),
    nat_u16_small (t3 % 2 ^ (log2_floor n n + 2)) (by omega)]
  unfold random_S
  split
  · simp only [Option.some_bind, hfin]
  · simp only [Option.some_bind, hfin]

/-- Where the lookup stays inside the table (or on the cyclic path, which has no lookup),
`hsg_read` is `hsg`, whatever lies behind the table. -/
theorem hsg_read_eq_hsg (mem : Nat → Nat) (t1 t2 t3 maio hsn n : Nat)
    (hidx : hsn = 0 ∨ rn_index t1 t3 hsn ≤ 113) :
    hsg_read mem t1 t2 t3 maio hsn n = hsg t1 t2 t3 maio hsn n := by
  by_cases hh : hsn = 0
  · subst hh
    exact hsg_read_cyclic mem t1 t2 t3 maio n
  · have hi : rn_index t1 t3 hsn ≤ 113 := hidx.resolve_left hh
    have hlen : RNTABLE.length = 114 := by decide
    have hlt : rn_index t1 t3 hsn < RNTABLE.length := by omega
    have hr := List.getElem?_eq_getElem hlt
    have hrd := rn_read_in_table mem _ _ hr
    unfold hsg_read hsg
    simp only [hrd, hr, Option.bind_eq_bind, Option.some_bind]

theorem hsg_read_in_range (mem : Nat → Nat) (t1 t2 t3 maio hsn n : Nat) (h1 : t1 ≤ 63)
    (h2 : t2 ≤ 25) (h3 : t3 ≤ 50) (hn1 : 1 ≤ n) (hn : n ≤ 64) :
    ∃ v : Int, hsg_read mem t1 t2 t3 maio hsn n = some v ∧ 0 ≤ v ∧ v < (n : Int) := by
  by_cases hh : hsn = 0
  · subst hh
    rw [hsg_read_cyclic, hsg_cyclic_eq t1 t2 t3 maio n h1 h2 h3 hn1 hn]
    exact ⟨_, rfl, Int.emod_nonneg _ (by omega), Int.emod_lt_of_pos _ (by omega)⟩
  · rw [hsg_read_random_eq mem t1 t2 t3 maio hsn n h1 h2 h3 hn1 hn hh]
    refine ⟨_, rfl, by omega, ?_⟩
    have := Nat.mod_lt (maio + random_S t2 t3 (rn_read mem (rn_index t1 t3 hsn)) n)
      (show 0 < n by omega)
    omega

/-- Claim C1: for counters in range (`t1 ≤ 63`, `t2 ≤ 25`, `t3 ≤ 50`), `1 ≤ N ≤ 64`, every
`maio` and every `hsn`, on both paths, `hsg` returns an index `MAI` with `0 ≤ MAI < N`.
Where the lookup index exceeds 113 this holds for every byte `mem` that the read past the
table may yield; where it does not (or `hsn = 0`), the strict embedding `hsg` returns the
same index. -/
theorem hsg_returns_index (mem : Nat → Nat) (t1 t2 t3 maio hsn N : Nat) (h1 : t1 ≤ 63)
    (h2 : t2 ≤ 25) (h3 : t3 ≤ 50) (hN1 : 1 ≤ N) (hN : N ≤ 64) :
    ∃ v : Int, hsg_read mem t1 t2 t3 maio hsn N = some v ∧ 0 ≤ v ∧ v < (N : Int) ∧
      (hsn = 0 ∨ rn_index t1 t3 hsn ≤ 113 → hsg t1 t2 t3 maio hsn N = some v) := by
  obtain ⟨v, hv, h0, hlt⟩ := hsg_read_in_range mem t1 t2 t3 maio hsn N h1 h2 h3 hN1 hN
  refine ⟨v, hv, h0, hlt, fun hidx => ?_⟩
  rw [← hsg_read_eq_hsg mem t1 t2 t3 maio hsn N hidx]
  exact hv

/-- Instance of `hsg_returns_index` in the driver's enumeration (`hsn = 51`, `N = 6`), at
`t1 = 15`, `t2 = 0`, `t3 = 50`, `maio = 0`, where the lookup index is 114, with the byte
behind the table taken as 200. -/
theorem hsg_returns_index_witness :
    ∃ v : Int, hsg_read (fun _ => 200) 15 0 50 0 51 6 = some v ∧ 0 ≤ v ∧
      v < ((6 : Nat) : Int) ∧
      (51 = 0 ∨ rn_index 15 50 51 ≤ 113 → hsg 15 0 50 0 51 6 = some v) :=
  hsg_returns_index (fun _ => 200) 15 0 50 0 51 6 (by decide) (by decide) (by decide)
    (by decide) (by decide)

/-- Claim C2, at two inputs of the cyclic path: for `t3 < t2` the C remainder is negative
(`hsg 0 1 0 0 0 3` is 1 where the floor-modulus frame number 1275 gives 0), and for
`t1 = 63` the 16-bit frame-number variable wraps (`hsg 63 0 0 0 0 3` is 2 where the frame
number 83538 gives 0). -/
theorem hsg_cyclic_differs_from_spec_fn :
    hsg 0 1 0 0 0 3 = some 1 ∧ (spec_fn 0 1 0 + 0) % 3 = 0 ∧
    hsg 63 0 0 0 0 3 = some 2 ∧ (spec_fn 63 0 0 + 0) % 3 = 0 := by
  decide

/-- Claim C3: on the pseudo-random path (`hsn ≠ 0`) with counters in range, `1 ≤ N ≤ 64`
and a lookup index of at most 113, the table has an entry `r` at the index and `hsg`
returns `(maio + S) mod N`, where `b = floor(log2 N) + 1`, `modulus = 2 ^ (b + 1)`,
`M = (t2 + r) mod modulus` and `S = M` if `M < N`, else `(M + t3 mod modulus) mod N`. -/
theorem hsg_pseudo_random_path (t1 t2 t3 maio hsn N : Nat) (h1 : t1 ≤ 63) (h2 : t2 ≤ 25)
    (h3 : t3 ≤ 50) (hN1 : 1 ≤ N) (hN : N ≤ 64) (hh : hsn ≠ 0)
    (hidx : hsn ^^^ ((t1 % 64) + t3) ≤ 113) :
    ∃ r, RNTABLE[hsn ^^^ ((t1 % 64) + t3)]? = some r ∧
      hsg t1 t2 t3 maio hsn N = some ((spec_pseudo_random t2 t3 maio r N : Nat) : Int) := by
  have hlen : RNTABLE.length = 114 := by decide
  have hlt : hsn ^^^ ((t1 % 64) + t3) < RNTABLE.length := by omega
  refine ⟨RNTABLE[hsn ^^^ ((t1 % 64) + t3)], List.getElem?_eq_getElem hlt, ?_⟩
  rw [spec_pseudo_random_eq]
  exact hsg_random_eq t1 t2 t3 maio hsn N _ h1 h2 h3 hN1 hN hh (List.getElem?_eq_getElem hlt)

/-- Instance of `hsg_pseudo_random_path` at `t1 = 3`, `t2 = 7`, `t3 = 20`, `maio = 4`,
`hsn = 51`, `N = 6`. -/
theorem hsg_pseudo_random_path_witness :
    ∃ r, RNTABLE[51 ^^^ ((3 % 64) + 20)]? = some r ∧
      hsg 3 7 20 4 51 6 = some ((spec_pseudo_random 7 20 4 r 6 : Nat) : Int) :=
  hsg_pseudo_random_path 3 7 20 4 51 6 (by decide) (by decide) (by decide) (by decide)
    (by decide) (by decide) (by decide)

/-- Claim C4: `hsg` returns the sentinel `-1` exactly when `t1 > 63` or `t2 > 25` or
`t3 > 50` or `n > 64`: every such input yields `-1` whatever `maio` and `hsn` are, and every
input with `t1 ≤ 63`, `t2 ≤ 25`, `t3 ≤ 50`, `1 ≤ n ≤ 64` and any `hsn` yields a non-negative
result, never `-1`, for every byte `mem` that a read past the table may yield. -/
theorem hsg_sentinel_exactly (mem : Nat → Nat) (t1 t2 t3 maio hsn n : Nat) :
    (t1 > 63 ∨ t2 > 25 ∨ t3 > 50 ∨ n > 64 →
      hsg_read mem t1 t2 t3 maio hsn n = some (-1) ∧ hsg t1 t2 t3 maio hsn n = some (-1)) ∧
    (t1 ≤ 63 → t2 ≤ 25 → t3 ≤ 50 → 1 ≤ n → n ≤ 64 →
      ∃ v : Int, hsg_read mem t1 t2 t3 maio hsn n = some v ∧ 0 ≤ v ∧ v ≠ -1) ∧
    (hsg_read mem t1 t2 t3 maio hsn n = some (-1) ↔
      (t1 > 63 ∨ t2 > 25 ∨ t3 > 50 ∨ n > 64)) := by
  refine ⟨fun hg => ⟨hsg_read_rejected mem t1 t2 t3 maio hsn n hg,
    (hsg_sentinel_iff t1 t2 t3 maio hsn n).mpr hg⟩, ?_, ?_⟩
  · intro h1 h2 h3 hn1 hn
    obtain ⟨v, hv, h0, _⟩ := hsg_read_in_range mem t1 t2 t3 maio hsn n h1 h2 h3 hn1 hn
    exact ⟨v, hv, h0, by omega⟩
  · constructor
    · intro h
      by_contra hg
      have h1 : t1 ≤ 63 := by omega
      have h2 : t2 ≤ 25 := by omega
      have h3 : t3 ≤ 50 := by omega
      have hn : n ≤ 64 := by omega
      rcases Nat.eq_zero_or_pos n with h0 | hpos
      · subst h0
        rw [hsg_read_zero_undef mem t1 t2 t3 maio hsn h1 h2 h3] at h
        exact Option.noConfusion h
      · obtain ⟨v, hv, hv0, _⟩ := hsg_read_in_range mem t1 t2 t3 maio hsn n h1 h2 h3 hpos hn
        rw [hv] at h
        injection h with h
        omega
    · exact hsg_read_rejected mem t1 t2 t3 maio hsn n

/-- Instance of `hsg_sentinel_exactly` at the boundary `t1 = 63`, `t2 = 25`, `t3 = 50`,
`n = 64` with `hsn = 2` (lookup index 115) and the byte behind the table taken as 200. -/
theorem hsg_sentinel_exactly_witness :
    ∃ v : Int, hsg_read (fun _ => 200) 63 25 50 0 2 64 = some v ∧ 0 ≤ v ∧ v ≠ -1 :=
  (hsg_sentinel_exactly (fun _ => 200) 63 25 50 0 2 64).2.1 (by decide) (by decide)
    (by decide) (by decide) (by decide)

/-- Claim C5, at `t1 = 15`, `t3 = 50`, `hsn = 51`: the index `hsn XOR ((t1 mod 64) + t3)`
is 114 while `RNTABLE` has the 114 entries 0 to 113, so the lookup leaves the table. -/
theorem rn_index_leaves_table :
    51 ^^^ ((15 % 64) + 50) = 114 ∧ RNTABLE.length = 114 ∧
    RNTABLE[51 ^^^ ((15 % 64) + 50)]? = none := by
  decide

/-- Claim C6, at `n = 0`: the sanity check accepts a zero-size allocation and `hsg` goes on
to a remainder by zero (cyclic path) or to the bit count of zero (pseudo-random path); it
does not return the sentinel `-1`. -/
theorem hsg_zero_size_not_rejected :
    hsg 0 0 0 0 0 0 = none ∧ hsg 0 0 0 0 51 0 = none ∧
    hsg 0 0 0 0 0 0 ≠ some (-1) ∧ hsg 0 0 0 0 51 0 ≠ some (-1) := by
  decide

/-- Claim C7: on the cyclic path with counters in range and `1 ≤ N ≤ 64`, `hsg` returns
a value `v0` for `maio = 0` and returns `(v0 + maio) mod N` for every `maio`. -/
theorem hsg_cyclic_maio_offset (t1 t2 t3 maio N : Nat) (h1 : t1 ≤ 63) (h2 : t2 ≤ 25)
    (h3 : t3 ≤ 50) (hN1 : 1 ≤ N) (hN : N ≤ 64) :
    ∃ v0 : Int, hsg t1 t2 t3 0 0 N = some v0 ∧
      hsg t1 t2 t3 maio 0 N = some ((v0 + (maio : Int)) % (N : Int)) := by
  refine ⟨_, hsg_cyclic_eq t1 t2 t3 0 N h1 h2 h3 hN1 hN, ?_⟩
  rw [hsg_cyclic_eq t1 t2 t3 maio N h1 h2 h3 hN1 hN]
  simp only [Nat.cast_zero, add_zero, Int.emod_add_emod]

/-- Instance of `hsg_cyclic_maio_offset` at `t1 = 63`, `t2 = 25`, `t3 = 3`, `maio = 65535`,
`N = 7`. -/
theorem hsg_cyclic_maio_offset_witness :
    ∃ v0 : Int, hsg 63 25 3 0 0 7 = some v0 ∧
      hsg 63 25 3 65535 0 7 = some ((v0 + ((65535 : Nat) : Int)) % ((7 : Nat) : Int)) :=
  hsg_cyclic_maio_offset 63 25 3 65535 7 (by decide) (by decide) (by decide) (by decide)
    (by decide)

/-- Claim C8: with counters in range and `1 ≤ N ≤ 64`, on the cyclic path and on the
pseudo-random path with a lookup index of at most 113, `hsg` returns a value and returns
the same value when `maio` is replaced by `maio mod N`. -/
theorem hsg_maio_mod (t1 t2 t3 maio hsn N : Nat) (h1 : t1 ≤ 63) (h2 : t2 ≤ 25)
    (h3 : t3 ≤ 50) (hN1 : 1 ≤ N) (hN : N ≤ 64)
    (hidx : hsn = 0 ∨ hsn ^^^ ((t1 % 64) + t3) ≤ 113) :
    ∃ v : Int, hsg t1 t2 t3 maio hsn N = some v ∧
      hsg t1 t2 t3 (maio % N) hsn N = some v := by
  by_cases hh : hsn = 0
  · subst hh
    refine ⟨_, hsg_cyclic_eq t1 t2 t3 maio N h1 h2 h3 hN1 hN, ?_⟩
    rw [hsg_cyclic_eq t1 t2 t3 (maio % N) N h1 h2 h3 hN1 hN]
    simp only [Int.natCast_mod, Int.add_emod_emod]
  · have hi : hsn ^^^ ((t1 % 64) + t3) ≤ 113 := hidx.resolve_left hh
    have hlen : RNTABLE.length = 114 := by decide
    have hlt : rn_index t1 t3 hsn < RNTABLE.length := by unfold rn_index; omega
    have hr := List.getElem?_eq_getElem hlt
    refine ⟨_, hsg_random_eq t1 t2 t3 maio hsn N _ h1 h2 h3 hN1 hN hh hr, ?_⟩
    rw [hsg_random_eq t1 t2 t3 (maio % N) hsn N _ h1 h2 h3 hN1 hN hh hr]
    simp only [Nat.mod_add_mod]

/-- Instance of `hsg_maio_mod` at `t1 = 3`, `t2 = 7`, `t3 = 20`, `maio = 1000`, `hsn = 51`,
`N = 6`. -/
theorem hsg_maio_mod_witness :
    ∃ v : Int, hsg 3 7 20 1000 51 6 = some v ∧ hsg 3 7 20 (1000 % 6) 51 6 = some v :=
  hsg_maio_mod 3 7 20 1000 51 6 (by decide) (by decide) (by decide) (by decide) (by decide)
    (Or.inr (by decide))

/-- Claim C9, at the frame numbers 51 and 66300: with `T1 = F div 1326`, `T2 = F mod 26`,
`T3 = F mod 51`, `maio = 0` and `N = 3`, `hsg` returns 1 for `F = 51` (where `T3 < T2`) and
2 for `F = 66300` (where the frame number exceeds 65535), while `(F + maio) mod N` is 0 for
both. -/
theorem hsg_cyclic_loses_frame_number :
    hsg (51 / 1326) (51 % 26) (51 % 51) 0 0 3 = some 1 ∧ ((51 + 0 : Int) % 3 = 0) ∧
    hsg (66300 / 1326) (66300 % 26) (66300 % 51) 0 0 3 = some 2 ∧
    ((66300 + 0 : Int) % 3 = 0) := by
  decide

/-- Claim C10: on the cyclic path, for every frame number `F` and `1 ≤ N ≤ 64`, with
`T1(F) = (F div 1326) mod 64`, `T2(F) = F mod 26`, `T3(F) = F mod 51`, `hsg` returns a
value at the counters of `F`, and the same value at the counters of `F + 84864`. -/
theorem hsg_cyclic_hyperframe_period (F maio N : Nat) (hN1 : 1 ≤ N) (hN : N ≤ 64) :
    ∃ v : Int, hsg ((F / 1326) % 64) (F % 26) (F % 51) maio 0 N = some v ∧
      hsg (((F + 84864) / 1326) % 64) ((F + 84864) % 26) ((F + 84864) % 51) maio 0 N
        = some v := by
  have e1 : ((F + 84864) / 1326) % 64 = (F / 1326) % 64 := by omega
  have e2 : (F + 84864) % 26 = F % 26 := by omega
  have e3 : (F + 84864) % 51 = F % 51 := by omega
  rw [e1, e2, e3]
  have h1 : (F / 1326) % 64 ≤ 63 := by omega
  have h2 : F % 26 ≤ 25 := by omega
  have h3 : F % 51 ≤ 50 := by omega
  exact ⟨_, hsg_cyclic_eq _ _ _ maio N h1 h2 h3 hN1 hN, hsg_cyclic_eq _ _ _ maio N h1 h2 h3 hN1 hN⟩

/-- Instance of `hsg_cyclic_hyperframe_period` at `F = 70000`, `maio = 5`, `N = 6`. -/
theorem hsg_cyclic_hyperframe_period_witness :
    ∃ v : Int, hsg ((70000 / 1326) % 64) (70000 % 26) (70000 % 51) 5 0 6 = some v ∧
      hsg (((70000 + 84864) / 1326) % 64) ((70000 + 84864) % 26) ((70000 + 84864) % 51) 5 0 6
        = some v :=
  hsg_cyclic_hyperframe_period 70000 5 6 (by decide) (by decide)

theorem hsg_cyclic_nonneg_diff (t1 t2 t3 maio n : Nat) (h1 : t1 ≤ 63) (h2 : t2 ≤ 25)
    (h3 : t3 ≤ 50) (hn1 : 1 ≤ n) (hn : n ≤ 64) (h23 : t2 ≤ t3)
    (hfit : spec_fn t1 t2 t3 ≤ 65535) :
    hsg t1 t2 t3 maio 0 n = some ((spec_fn t1 t2 t3 + (maio : Int)) % (n : Int)) := by
  rw [hsg_cyclic_eq t1 t2 t3 maio n h1 h2 h3 hn1 hn]
  have ht : Int.tmod ((t3 : Int) - (t2 : Int)) 26 = ((t3 : Int) - (t2 : Int)) % 26 :=
    Int.tmod_eq_emod (by omega) (by norm_num)
  unfold spec_fn at hfit ⊢
  rw [ht]
  have he : (51 * (((t3 : Int) - (t2 : Int)) % 26) + (t3 : Int) + 1326 * (t1 : Int)) % 65536
      = 51 * (((t3 : Int) - (t2 : Int)) % 26) + (t3 : Int) + 51 * 26 * (t1 : Int) := by
    omega
  rw [he]

theorem spec_fn_fits (t1 t2 t3 : Nat) (h1 : t1 ≤ 48) (h3 : t3 ≤ 50) :
    spec_fn t1 t2 t3 ≤ 65535 := by
  unfold spec_fn
  omega

theorem hsg_offset_form (t1 t2 t3 hsn n : Nat) (h1 : t1 ≤ 63) (h2 : t2 ≤ 25)
    (h3 : t3 ≤ 50) (hn1 : 1 ≤ n) (hn : n ≤ 64)
    (hidx : hsn = 0 ∨ hsn ^^^ ((t1 % 64) + t3) ≤ 113) :
    ∃ base : Nat, ∀ maio : Nat,
      hsg t1 t2 t3 maio hsn n = some (((base + maio) % n : Nat) : Int) := by
  by_cases hh : hsn = 0
  · subst hh
    refine ⟨((51 * Int.tmod ((t3 : Int) - (t2 : Int)) 26 + (t3 : Int) + 1326 * (t1 : Int))
      % 65536).toNat, fun maio => ?_⟩
    rw [hsg_cyclic_eq t1 t2 t3 maio n h1 h2 h3 hn1 hn]
    have hnn : 0 ≤ (51 * Int.tmod ((t3 : Int) - (t2 : Int)) 26 + (t3 : Int) + 1326 * (t1 : Int))
        % 65536 := Int.emod_nonneg _ (by norm_num)
    push_cast
    rw [Int.toNat_of_nonneg hnn]
  · have hi : hsn ^^^ ((t1 % 64) + t3) ≤ 113 := hidx.resolve_left hh
    have hlen : RNTABLE.length = 114 := by decide
    have hlt : rn_index t1 t3 hsn < RNTABLE.length := by unfold rn_index; omega
    have hr := List.getElem?_eq_getElem hlt
    refine ⟨random_S t2 t3 (RNTABLE[rn_index t1 t3 hsn]) n, fun maio => ?_⟩
    rw [hsg_random_eq t1 t2 t3 maio hsn n _ h1 h2 h3 hn1 hn hh hr, Nat.add_comm]

/-- Claim C11: the two conformance vectors of the cyclic path, `hsg(0,0,0,0,0,6) = 0` and
`hsg(0,0,1,3,0,6) = 1`. -/
theorem hsg_cyclic_vectors :
    hsg 0 0 0 0 0 6 = some 0 ∧ hsg 0 0 1 3 0 6 = some 1 := by
  decide

/-- Claim C12, at `t1 = 2`, `t2 = 10`, `t3 = 3`, `maio = 1`, `N = 5`: the C remainder of
`3 - 10` by 26 is `-7`, not 19, so `hsg` returns `(51 * (-7) + 3 + 2652 + 1) mod 5 = 4`,
while the normalised difference gives `(51 * (3 + 26 - 10) + 3 + 1326 * 2 + 1) mod 5 = 0`. -/
theorem hsg_negative_difference_not_normalised :
    Int.tmod ((3 : Int) - 10) 26 = -7 ∧ hsg 2 10 3 1 0 5 = some 4 ∧
    (51 * (3 + 26 - 10) + 3 + 1326 * 2 + 1 : Int) % 5 = 0 := by
  decide

/-- Claim C13, at two inputs with `t2 ≤ t3` and `t3 - t2 < 26`: for `t1 = 63` the frame
number 83538 does not fit the 16-bit variable `fn`, which holds 18002, and
`hsg 63 0 0 0 0 3` is 2 where the untruncated frame number gives 0; for `t1 = 60`, `t2 = 5`,
`t3 = 20`, `maio = 7`, `N = 7` the frame number 80345 wraps to 14809 and `hsg` is 4 where
the untruncated sum gives 6. -/
theorem hsg_frame_number_truncated :
    hsg 63 0 0 0 0 3 = some 2 ∧ (51 * (0 - 0) + 0 + 1326 * 63 + 0 : Int) % 3 = 0 ∧
    hsg 60 5 20 7 0 7 = some 4 ∧ (51 * (20 - 5) + 20 + 1326 * 60 + 7 : Int) % 7 = 6 := by
  decide

theorem rn_index_hsn_one (s : Nat) (hs : s ≤ 113) : 1 ^^^ s ≤ 113 := by
  have hall : ∀ x < 114, 1 ^^^ x ≤ 113 := by decide
  exact hall s (by omega)

theorem rn_index_escape (hsn : Nat) (h2 : 2 ≤ hsn) (h63 : hsn ≤ 63) :
    113 < hsn ^^^ (63 + (if hsn < 16 then 49 else 64 - hsn)) := by
  have hall : ∀ x < 64, 2 ≤ x → 113 < x ^^^ (63 + (if x < 16 then 49 else 64 - x)) := by
    decide
  exact hall hsn (by omega) h2

/-- Claim C15: among `hsn` in `1..63` the lookup index `hsn XOR ((t1 mod 64) + t3)` is at
most 113 for all `t1 ≤ 63`, `t3 ≤ 50` exactly when `hsn = 1`; for every `hsn` in `2..63`
some `t1 ≤ 63`, `t3 ≤ 50` give an index above 113; and for `hsn ≤ 63` the index is at most
113 whenever `t1 + t3 ≤ 63`. -/
theorem rn_index_safe_hsn :
    (∀ hsn : Nat, 1 ≤ hsn → hsn ≤ 63 →
      ((∀ t1 t3 : Nat, t1 ≤ 63 → t3 ≤ 50 → rn_index t1 t3 hsn ≤ 113) ↔ hsn = 1)) ∧
    (∀ hsn : Nat, 2 ≤ hsn → hsn ≤ 63 →
      ∃ t1 t3 : Nat, t1 ≤ 63 ∧ t3 ≤ 50 ∧ 113 < rn_index t1 t3 hsn) ∧
    (∀ hsn t1 t3 : Nat, hsn ≤ 63 → t1 + t3 ≤ 63 → rn_index t1 t3 hsn ≤ 113) := by
  have hesc : ∀ hsn : Nat, 2 ≤ hsn → hsn ≤ 63 →
      ∃ t1 t3 : Nat, t1 ≤ 63 ∧ t3 ≤ 50 ∧ 113 < rn_index t1 t3 hsn := by
    intro hsn h2 h63
    refine ⟨63, if hsn < 16 then 49 else 64 - hsn, le_refl _, ?_, ?_⟩
    · split <;> omega
    · have := rn_index_escape hsn h2 h63
      simpa [rn_index] using this
  refine ⟨?_, hesc, ?_⟩
  · intro hsn h1 h63
    constructor
    · intro hall
      by_contra hne
      obtain ⟨t1, t3, ht1, ht3, hbad⟩ := hesc hsn (by omega) h63
      have := hall t1 t3 ht1 ht3
      omega
    · intro he t1 t3 ht1 ht3
      subst he
      unfold rn_index
      exact rn_index_hsn_one _ (by omega)
  · intro hsn t1 t3 h63 hsum
    have hx : hsn ^^^ ((t1 % 64) + t3) < 2 ^ 6 :=
      Nat.xor_lt_two_pow (by norm_num; omega) (by norm_num; omega)
    unfold rn_index
    norm_num at hx
    omega

/-- Instance of `rn_index_safe_hsn` at the driver's `hsn = 51`: some `t1 ≤ 63`, `t3 ≤ 50`
give an index above 113. -/
theorem rn_index_safe_hsn_witness :
    ∃ t1 t3 : Nat, t1 ≤ 63 ∧ t3 ≤ 50 ∧ 113 < rn_index t1 t3 51 :=
  rn_index_safe_hsn.2.1 51 (by decide) (by decide)

/-- Claim C16: with counters in range and `1 ≤ N ≤ 64`, on the cyclic path and on the
pseudo-random path with a lookup index of at most 113, `hsg` returns a value `v0` for
`maio = 0` and `(v0 + maio) mod N` for every `maio`; two offsets below `N` with the same
result are equal, and every index below `N` is the result of an offset below `N`. -/
theorem hsg_maio_bijection (t1 t2 t3 hsn N : Nat) (h1 : t1 ≤ 63) (h2 : t2 ≤ 25)
    (h3 : t3 ≤ 50) (hN1 : 1 ≤ N) (hN : N ≤ 64)
    (hidx : hsn = 0 ∨ hsn ^^^ ((t1 % 64) + t3) ≤ 113) :
    ∃ v0 : Int, hsg t1 t2 t3 0 hsn N = some v0 ∧
      (∀ maio : Nat, hsg t1 t2 t3 maio hsn N = some ((v0 + (maio : Int)) % (N : Int))) ∧
      (∀ maio1 maio2 : Nat, maio1 < N → maio2 < N →
        hsg t1 t2 t3 maio1 hsn N = hsg t1 t2 t3 maio2 hsn N → maio1 = maio2) ∧
      (∀ k : Nat, k < N → ∃ maio : Nat, maio < N ∧ hsg t1 t2 t3 maio hsn N = some (k : Int)) := by
  obtain ⟨base, hb⟩ := hsg_offset_form t1 t2 t3 hsn N h1 h2 h3 hN1 hN hidx
  have hNpos : 0 < N := by omega
  refine ⟨(((base + 0) % N : Nat) : Int), hb 0, ?_, ?_, ?_⟩
  · intro maio
    rw [hb maio]
    push_cast
    rw [add_zero, Int.emod_add_emod]
  · intro m1 m2 hm1 hm2 heq
    rw [hb m1, hb m2] at heq
    have hnat : (base + m1) % N = (base + m2) % N := by
      have := Option.some.inj heq
      exact_mod_cast this
    have hmod : m1 % N = m2 % N := Nat.ModEq.add_left_cancel' base hnat
    rwa [Nat.mod_eq_of_lt hm1, Nat.mod_eq_of_lt hm2] at hmod
  · intro k hk
    refine ⟨(k + (N - base % N)) % N, Nat.mod_lt _ hNpos, ?_⟩
    rw [hb]
    congr 2
    have hbl : base % N < N := Nat.mod_lt _ hNpos
    have hsum : base % N + (k + (N - base % N)) = k + N := by omega
    rw [Nat.add_mod_mod, ← Nat.mod_add_mod, hsum, Nat.add_mod_right, Nat.mod_eq_of_lt hk]

/-- Instance of `hsg_maio_bijection` at `t1 = 3`, `t2 = 7`, `t3 = 20`, `hsn = 51`,
`N = 6`. -/
theorem hsg_maio_bijection_witness :
    ∃ v0 : Int, hsg 3 7 20 0 51 6 = some v0 ∧
      (∀ maio : Nat, hsg 3 7 20 maio 51 6 = some ((v0 + (maio : Int)) % ((6 : Nat) : Int))) ∧
      (∀ maio1 maio2 : Nat, maio1 < 6 → maio2 < 6 →
        hsg 3 7 20 maio1 51 6 = hsg 3 7 20 maio2 51 6 → maio1 = maio2) ∧
      (∀ k : Nat, k < 6 → ∃ maio : Nat, maio < 6 ∧ hsg 3 7 20 maio 51 6 = some (k : Int)) :=
  hsg_maio_bijection 3 7 20 51 6 (by decide) (by decide) (by decide) (by decide) (by decide)
    (Or.inr (by decide))

/-- Claim C17 as stated fails: with counters in range, `t2 ≤ t3`, `hsn = 0` and
`FN = 51 * (t3 - t2) + t3 + 1326 * t1 ≤ 65535`, `hsg` is not always `(FN + maio) mod N`; at
`t1 = 0`, `t2 = 0`, `t3 = 30`, `maio = 0`, `N = 5` the code multiplies `30 mod 26 = 4` by 51
and returns `234 mod 5 = 4`, while `FN = 1560` gives 0. -/
theorem hsg_agreement_region_counterexample :
    ¬ ∀ t1 t2 t3 maio N : Nat, t1 ≤ 63 → t2 ≤ 25 → t2 ≤ t3 → t3 ≤ 50 → maio < 65536 →
        1 ≤ N → N ≤ 64 →
        51 * ((t3 : Int) - (t2 : Int)) + (t3 : Int) + 1326 * (t1 : Int) ≤ 65535 →
        hsg t1 t2 t3 maio 0 N =
          some ((51 * ((t3 : Int) - (t2 : Int)) + (t3 : Int) + 1326 * (t1 : Int) + (maio : Int))
                % (N : Int)) := by
  intro h
  have h5 := h 0 0 30 0 5 (by decide) (by decide) (by decide) (by decide) (by decide)
    (by decide) (by decide) (by decide)
  revert h5
  decide

/-- Claim C17 as amended: on the cyclic path with counters in range, `t2 ≤ t3` and
`1 ≤ N ≤ 64`, whenever the frame number `FN = 51 * ((t3 - t2) mod 26) + t3 + 1326 * t1` is
at most 65535, `hsg` returns `(FN + maio) mod N`; and `FN ≤ 65535` holds whenever
`t1 ≤ 48`. -/
theorem hsg_agreement_region (t1 t2 t3 maio N : Nat) (h1 : t1 ≤ 63) (h2 : t2 ≤ 25)
    (h23 : t2 ≤ t3) (h3 : t3 ≤ 50) (hN1 : 1 ≤ N) (hN : N ≤ 64) :
    (spec_fn t1 t2 t3 ≤ 65535 →
      hsg t1 t2 t3 maio 0 N = some ((spec_fn t1 t2 t3 + (maio : Int)) % (N : Int))) ∧
    (t1 ≤ 48 → spec_fn t1 t2 t3 ≤ 65535) :=
  ⟨fun hfit => hsg_cyclic_nonneg_diff t1 t2 t3 maio N h1 h2 h3 hN1 hN h23 hfit,
   fun h48 => spec_fn_fits t1 t2 t3 h48 h3⟩

/-- Instance of `hsg_agreement_region` at `t1 = 49`, `t2 = 0`, `t3 = 9`, `maio = 2`,
`N = 7`, where the frame number is 65442. -/
theorem hsg_agreement_region_witness :
    spec_fn 49 0 9 ≤ 65535 ∧
    hsg 49 0 9 2 0 7 = some ((spec_fn 49 0 9 + ((2 : Nat) : Int)) % ((7 : Nat) : Int)) :=
  ⟨by decide, (hsg_agreement_region 49 0 9 2 7 (by decide) (by decide) (by decide)
    (by decide) (by decide) (by decide)).1 (by decide)⟩

/-- Claim C18: on the cyclic path with counters in range and `1 ≤ N ≤ 64`, `hsg` returns
`(((51 * r + t3 + 1326 * t1) mod 65536) + maio) mod N`, where `r` is the truncating
remainder of `t3 - t2` by 26 (in `(-26, 0]` when `t3 < t2`), the inner reduction lies in
`[0, 65535]`, and the sum with `maio` is not reduced modulo `2^16`. -/
theorem hsg_cyclic_fixed_width (t1 t2 t3 maio N : Nat) (h1 : t1 ≤ 63) (h2 : t2 ≤ 25)
    (h3 : t3 ≤ 50) (hN1 : 1 ≤ N) (hN : N ≤ 64) :
    hsg t1 t2 t3 maio 0 N =
      some (((51 * Int.tmod ((t3 : Int) - (t2 : Int)) 26 + (t3 : Int) + 1326 * (t1 : Int))
                % 65536 + (maio : Int)) % (N : Int)) ∧
    0 ≤ (51 * Int.tmod ((t3 : Int) - (t2 : Int)) 26 + (t3 : Int) + 1326 * (t1 : Int)) % 65536 ∧
    (51 * Int.tmod ((t3 : Int) - (t2 : Int)) 26 + (t3 : Int) + 1326 * (t1 : Int)) % 65536
      ≤ 65535 ∧
    (t3 < t2 → -26 < Int.tmod ((t3 : Int) - (t2 : Int)) 26 ∧
      Int.tmod ((t3 : Int) - (t2 : Int)) 26 ≤ 0) := by
  refine ⟨hsg_cyclic_eq t1 t2 t3 maio N h1 h2 h3 hN1 hN, Int.emod_nonneg _ (by norm_num),
    ?_, ?_⟩
  · have := Int.emod_lt_of_pos
      (51 * Int.tmod ((t3 : Int) - (t2 : Int)) 26 + (t3 : Int) + 1326 * (t1 : Int))
      (show (0 : Int) < 65536 by norm_num)
    omega
  · intro hlt
    have hx : (t3 : Int) - (t2 : Int) = Int.negSucc (t2 - t3 - 1) := by
      rw [Int.negSucc_eq]
      omega
    have hneg : Int.tmod (Int.negSucc (t2 - t3 - 1)) 26
        = -(((t2 - t3 - 1 + 1) % 26 : Nat) : Int) := rfl
    rw [hx, hneg]
    omega

/-- Instance of `hsg_cyclic_fixed_width` at `t1 = 63`, `t2 = 25`, `t3 = 0`, `maio = 65535`,
`N = 7`. -/
theorem hsg_cyclic_fixed_width_witness :
    hsg 63 25 0 65535 0 7 =
      some (((51 * Int.tmod ((((0 : Nat) : Int)) - ((25 : Nat) : Int)) 26 + ((0 : Nat) : Int)
                + 1326 * ((63 : Nat) : Int)) % 65536 + ((65535 : Nat) : Int))
              % ((7 : Nat) : Int)) :=
  (hsg_cyclic_fixed_width 63 25 0 65535 7 (by decide) (by decide) (by decide) (by decide)
    (by decide)).1

/-- With the `double` computation taken at its mathematical value, the bit count `b` of
`nbin` satisfies `2 ^ (b - 1) ≤ n < 2 ^ b` for `1 ≤ n ≤ 64`, and `2 << b` is
`2 ^ (b + 1)`. -/
theorem nbin_bit_length (n : Nat) (h1 : 1 ≤ n) (h64 : n ≤ 64) :
    ∃ b : Nat, nbin n = some b ∧ b = Nat.log2 n + 1 ∧ 2 ^ (b - 1) ≤ n ∧ n < 2 ^ b ∧
      nat_u16 (2 <<< nat_u16 b) = 2 ^ (b + 1) := by
  refine ⟨log2_floor n n + 1, (nbin_eq n h1 h64).1,
    by rw [log2_floor_eq_log2 n n (Nat.le_refl n)], ?_, ?_, (nbin_eq n h1 h64).2⟩
  · interval_cases n <;> decide
  · interval_cases n <;> decide

end Hsg
